import Mathlib

/-!
Verification of the InMemoryDB transactional key-value engine
(`database.py`) against its natural-language specification.

The engine state is embedded shallowly: Python dicts become
insertion-ordered association lists (`Assoc`), the `defaultdict(int)`
reverse index becomes an association list over `Int`, and raised Python
exceptions become `Except` results paired with the post-call object
state (mutations performed before a raise remain visible, exactly as
for a Python object whose method raised midway).
-/

namespace InMemoryDB

/-- Insertion-ordered association list, modelling a Python `dict`
with string keys. -/
abbrev Assoc (α : Type) := List (String × α)

/-- Python `d[k]` / `d.get(k)`: value of the first entry whose key is `k`. -/
def dget {α : Type} : Assoc α → String → Option α
  | [], _ => none
  | (k1, v1) :: rest, k => if k1 = k then some v1 else dget rest k

/-- Python `k in d`. -/
def dmem {α : Type} (d : Assoc α) (k : String) : Bool :=
  (dget d k).isSome

/-- Python `d[k] = v`: update in place when the key is present (Python dicts
keep the original insertion position), append otherwise. -/
def dinsert {α : Type} : Assoc α → String → α → Assoc α
  | [], k, v => [(k, v)]
  | (k1, v1) :: rest, k, v =>
    if k1 = k then (k1, v) :: rest else (k1, v1) :: dinsert rest k v

/-- Python `del d[k]`: drop the first entry whose key is `k`. -/
def derase {α : Type} : Assoc α → String → Assoc α
  | [], _ => []
  | (k1, v1) :: rest, k => if k1 = k then rest else (k1, v1) :: derase rest k

/-- The committed store `_main_db`: key → value. -/
abbrev Dict := Assoc String

/-- The reverse index `_counts`: value → signed count
(`defaultdict(int)` holds Python ints). -/
abbrev Counts := Assoc Int

/-- Python `str.isalnum()` restricted to ASCII input: non-empty and
every character a letter or a digit. -/
def pyIsAlnum (s : String) : Bool :=
  !s.data.isEmpty && s.data.all Char.isAlphanum

/-- Method `_validate_string`: `true` means the string is INVALID (the method
returns the truth of `not isinstance(str) or not isalnum()`). -/
def validate_string (s : String) : Bool :=
  !(pyIsAlnum s)

/-- One transaction frame: staged writes (`updates`, value or the
tombstone string `"NULL"`) and the first-touch snapshot (`old_values`). -/
structure Frame where
  updates : Dict
  old_values : Dict
deriving DecidableEq

/-- The engine object: `_main_db`, `_counts`, `_transaction_stack`
(innermost frame LAST, as in the Python list), and the two
configuration bounds fixed at construction. -/
structure DBState where
  main_db : Dict
  counts : Counts
  stack : List Frame
  maxDepth : Nat
  maxSize : Nat
deriving DecidableEq

/-- The exceptions `database.py` can raise. -/
inductive DBErr
  | valueError
  | memoryError
  | recursionError
  | keyError
deriving DecidableEq

/-- Property `db_size`: `len(self._main_db)`. -/
def db_size (s : DBState) : Nat := s.main_db.length

/-- Property `transaction_depth`: `len(self._transaction_stack)`. -/
def transaction_depth (s : DBState) : Nat := s.stack.length

/-- A fresh engine: `InMemoryDB()` with the given configured bounds. -/
def initDB (maxDepth maxSize : Nat) : DBState :=
  { main_db := [], counts := [], stack := [],
    maxDepth := maxDepth, maxSize := maxSize }

/-- A fresh engine with the config fallbacks
`MAX_TRANSACTION_DEPTH = 100`, `MAX_DB_SIZE = 100000`. -/
def initDefault : DBState := initDB 100 100000

/-- Statement `self._counts[v] += 1` on the defaultdict. -/
def incCount (c : Counts) (v : String) : Counts :=
  dinsert c v ((dget c v).getD 0 + 1)

/-- Statements `self._counts[v] -= 1; if self._counts[v] == 0: del self._counts[v]`
on the defaultdict (an absent key reads as 0 and would be stored as -1). -/
def decCountDel (c : Counts) (v : String) : Counts :=
  if (dget c v).getD 0 - 1 = 0 then derase c v
  else dinsert c v ((dget c v).getD 0 - 1)

/-- Method `_update_main_db(key, value)`: maintain the reverse index for the
value being overwritten (when the key is present), then write the key
and increment the count of the new value. -/
def update_main_db (db : Dict) (c : Counts) (k v : String) : Dict × Counts :=
  match dget db k with
  | some oldv => (dinsert db k v, incCount (decCountDel c oldv) v)
  | none => (dinsert db k v, incCount c v)

/-- Lines 79-81 / 124-126: record `old_values[key]` on first touch
(only when the key is currently committed), then stage `updates[key]`. -/
def stageWrite (fr : Frame) (db : Dict) (k v : String) : Frame :=
  let ov := match dget fr.old_values k, dget db k with
    | none, some w => dinsert fr.old_values k w
    | _, _ => fr.old_values
  { updates := dinsert fr.updates k v, old_values := ov }

/-- Replace the last element of the stack (`self._transaction_stack[-1]`
is mutated in place). -/
def modifyLast (f : Frame → Frame) : List Frame → List Frame
  | [] => []
  | [x] => [f x]
  | x :: y :: rest => x :: modifyLast f (y :: rest)

/-- Method `set_value(key, value)`. -/
def set_value (s : DBState) (k v : String) : Except DBErr Unit × DBState :=
  if validate_string k then (.error .valueError, s)
  else if validate_string v then (.error .valueError, s)
  else if s.maxSize ≤ db_size s ∧ s.stack ≠ [] then (.error .memoryError, s)
  else if s.stack ≠ [] then
    if s.maxDepth ≤ transaction_depth s then (.error .recursionError, s)
    else
      (.ok (), { s with stack := modifyLast (fun fr => stageWrite fr s.main_db k v) s.stack })
  else
    (.ok (), { s with main_db := (update_main_db s.main_db s.counts k v).1,
                      counts := (update_main_db s.main_db s.counts k v).2 })

/-- Method `unset_value(key)`. -/
def unset_value (s : DBState) (k : String) : Except DBErr Unit × DBState :=
  if validate_string k then (.error .valueError, s)
  else if s.stack ≠ [] then
    (.ok (), { s with stack := modifyLast (fun fr => stageWrite fr s.main_db k "NULL") s.stack })
  else
    match dget s.main_db k with
    | some v =>
        (.ok (), { s with main_db := derase s.main_db k, counts := decCountDel s.counts v })
    | none => (.ok (), s)

/-- Method `get_value(key)`: first staged value scanning frames innermost to
outermost, else the committed value, else the string `"NULL"`.
The method assigns no engine field, so it is a pure function of state. -/
def get_value (s : DBState) (k : String) : String :=
  if validate_string k then "ERROR: Invalid key format"
  else
    match s.stack.reverse.findSome? (fun fr => dget fr.updates k) with
    | some v => v
    | none => (dget s.main_db k).getD "NULL"

/-- Method `begin_transaction()`. -/
def begin_transaction (s : DBState) : Except DBErr Unit × DBState :=
  if s.maxDepth ≤ s.stack.length then (.error .recursionError, s)
  else (.ok (), { s with stack := s.stack ++ [{ updates := [], old_values := [] }] })

/-- Method `rollback_transaction()`: pop and discard the innermost frame. -/
def rollback_transaction (s : DBState) : Bool × DBState :=
  if s.stack = [] then (false, s)
  else (true, { s with stack := s.stack.dropLast })

/-- The body of the `for key, value in transaction["updates"].items()`
loop of `commit_transaction`, with the states mutated so far threaded
through; a `"NULL"` staged on a key ABSENT from the committed store hits
`old_values = self._main_db[key]` and raises `KeyError`, while a
`"NULL"` on a PRESENT key is skipped by the inverted guard
`if key not in self._main_db`. -/
def applyUpdates : List (String × String) → Dict → Counts →
    Except DBErr Unit × Dict × Counts
  | [], db, c => (.ok (), db, c)
  | (k, v) :: rest, db, c =>
    if v = "NULL" then
      if dmem db k then applyUpdates rest db c
      else (.error .keyError, db, c)
    else
      applyUpdates rest (update_main_db db c k v).1 (update_main_db db c k v).2

/-- The `while self._transaction_stack` loop of `commit_transaction`:
pop the OLDEST frame (`pop(0)`) and apply its updates; on a raise the
already-popped frames stay popped and the applied writes stay applied. -/
def commitLoop : List Frame → Dict → Counts →
    Except DBErr Unit × Dict × Counts × List Frame
  | [], db, c => (.ok (), db, c, [])
  | fr :: rest, db, c =>
    match (applyUpdates fr.updates db c).1 with
    | .ok _ => commitLoop rest (applyUpdates fr.updates db c).2.1 (applyUpdates fr.updates db c).2.2
    | .error e =>
        (.error e, (applyUpdates fr.updates db c).2.1, (applyUpdates fr.updates db c).2.2, rest)

/-- Method `commit_transaction()`: returns `False` on an empty stack, else
drains the whole stack bottom-to-top into the committed store. -/
def commit_transaction (s : DBState) : Except DBErr Bool × DBState :=
  if s.stack = [] then (.ok false, s)
  else
    let r := commitLoop s.stack s.main_db s.counts
    (r.1.map (fun _ => true),
     { s with main_db := r.2.1, counts := r.2.2.1, stack := r.2.2.2 })

/-- Python dict equality (used by `list.index` inside `count_values`):
same keys, same values, insertion order ignored. -/
def dictEq (d1 d2 : Dict) : Bool :=
  d1.all (fun kv => dget d2 kv.1 == some kv.2) &&
  d2.all (fun kv => dget d1 kv.1 == some kv.2)

/-- Python frame (dict-of-dicts) equality. -/
def frameEq (f g : Frame) : Bool :=
  dictEq f.updates g.updates && dictEq f.old_values g.old_values

/-- Python `self._transaction_stack.index(transaction)`: position of the FIRST
frame comparing equal to the given one. -/
def stackIndex (f : Frame) : List Frame → Nat
  | [] => 0
  | g :: rest => if frameEq g f then 0 else stackIndex f rest + 1

/-- Lines 148-152 of `count_values`: the guard
`key in self._main_db or any(...)` followed by
`old_values = transaction["old_values"].get(key, self._main_db[key])`;
the default argument is evaluated EAGERLY, so a key absent from the
committed store raises `KeyError` whenever the guard holds. -/
def countGuardAdjust (db : Dict) (pfx : List Frame) (fr : Frame)
    (value k : String) (acc : Int) : Except DBErr Int :=
  if dmem db k || pfx.any (fun t => ((dget t.updates k).getD "NULL") != "NULL") then
    match dget db k with
    | none => .error .keyError
    | some mv =>
        .ok (if (dget fr.old_values k).getD mv = value then acc - 1 else acc)
  else .ok acc

/-- Lines 153-156 of `count_values`: the `if val == value` /
`elif val == "NULL" and old_values.get(key) == value` adjustment. -/
def countValAdjust (fr : Frame) (value k v : String) (acc : Int) : Int :=
  if v = value then acc + 1
  else if v = "NULL" && dget fr.old_values k == some value then acc - 1
  else acc

/-- The inner `for key, val in transaction["updates"].items()` loop of
`count_values`. -/
def countUpdatesLoop (db : Dict) (pfx : List Frame) (fr : Frame)
    (value : String) : List (String × String) → Int → Except DBErr Int
  | [], acc => .ok acc
  | (k, v) :: rest, acc =>
    match countGuardAdjust db pfx fr value k acc with
    | .error e => .error e
    | .ok acc1 => countUpdatesLoop db pfx fr value rest (countValAdjust fr value k v acc1)

/-- The outer `for transaction in self._transaction_stack` loop of
`count_values`; `pfx` is `stack[:stack.index(transaction)]`. -/
def countFramesLoop (db : Dict) (fullStack : List Frame) (value : String) :
    List Frame → Int → Except DBErr Int
  | [], acc => .ok acc
  | fr :: rest, acc =>
    match countUpdatesLoop db (fullStack.take (stackIndex fr fullStack)) fr
        value fr.updates acc with
    | .error e => .error e
    | .ok acc1 => countFramesLoop db fullStack value rest acc1

/-- What `count_values` returns when it does not raise: the error
string for an invalid value, or an integer. -/
inductive CountResult
  | err (msg : String)
  | num (n : Int)
deriving DecidableEq

/-- Method `count_values(value)`. Reads but never assigns engine state. -/
def count_values (s : DBState) (value : String) : Except DBErr CountResult :=
  if validate_string value then .ok (.err "ERROR: Invalid value format")
  else
    (countFramesLoop s.main_db s.stack value s.stack
        ((dget s.counts value).getD 0)).map .num

/-- What `find_keys` returns: the error string, the `"NULL"` sentinel
for an empty result set, or the sorted key list. -/
inductive FindResult
  | err (msg : String)
  | nullSentinel
  | keys (ks : List String)
deriving DecidableEq

/-- Python `keys.add(k)` on the result set (membership semantics). -/
def addKey (ks : List String) (k : String) : List String :=
  if ks.contains k then ks else ks ++ [k]

/-- Python `keys.remove(k)` on the result set. -/
def removeKey (ks : List String) (k : String) : List String :=
  ks.filter (fun x => x ≠ k)

/-- Insert into a lexicographically sorted list. -/
def insSorted (x : String) : List String → List String
  | [] => [x]
  | y :: ys => if x < y ∨ x = y then x :: y :: ys else y :: insSorted x ys

/-- Python `sorted` on the collected key set. -/
def sortKeys (ks : List String) : List String :=
  ks.foldr insSorted []

/-- The per-frame loop of `find_keys`: add keys staged to `value`,
remove keys staged to the tombstone; any other staged value leaves the
set unchanged. -/
def findUpdatesLoop (value : String) : List (String × String) →
    List String → List String
  | [], ks => ks
  | (k, v) :: rest, ks =>
    let ks1 := if v = value then addKey ks k
               else if v = "NULL" && ks.contains k then removeKey ks k
               else ks
    findUpdatesLoop value rest ks1

/-- Method `find_keys(value)`. Reads but never assigns engine state. -/
def find_keys (s : DBState) (value : String) : FindResult :=
  if validate_string value then .err "ERROR: Invalid value format"
  else
    let base := s.main_db.foldl
      (fun ks kv => if kv.2 = value then addKey ks kv.1 else ks) []
    let ks := s.stack.foldl (fun ks fr => findUpdatesLoop value fr.updates ks) base
    if ks = [] then .nullSentinel else .keys (sortKeys ks)

/-- One engine call, for reachability statements (`get_value`,
`count_values` and `find_keys` assign no engine field and so do not
appear as state transitions). -/
inductive Op
  | setOp (k v : String)
  | unsetOp (k : String)
  | beginOp
  | rollbackOp
  | commitOp
deriving DecidableEq

/-- The state after one engine call (the post-call object state, also
when the call raised). -/
def stepOp (s : DBState) : Op → DBState
  | .setOp k v => (set_value s k v).2
  | .unsetOp k => (unset_value s k).2
  | .beginOp => (begin_transaction s).2
  | .rollbackOp => (rollback_transaction s).2
  | .commitOp => (commit_transaction s).2

/-- Run a call sequence. -/
def runOps (s : DBState) (ops : List Op) : DBState :=
  ops.foldl stepOp s

/-- Whether a call is one of the two staged-write operations. -/
def Op.isWrite : Op → Bool
  | .setOp _ _ => true
  | .unsetOp _ => true
  | _ => false

end InMemoryDB

namespace InMemoryDB

deriving instance DecidableEq for Except

/-! ### Concrete scenario states used by the claim theorems -/

/-- Scenario `set a 1; begin; set a 2; begin; set a 3; commit` -- the sequence of
the repo test `test_transaction_commit_rollback` up to its commit. -/
def c1S : DBState :=
  runOps initDefault
    [.setOp "a" "1", .beginOp, .setOp "a" "2", .beginOp, .setOp "a" "3", .commitOp]

/-- Scenario `set a 1; begin; unset a` -- a committed key tombstoned inside an
open transaction. -/
def c2Pre : DBState := runOps initDefault [.setOp "a" "1", .beginOp, .unsetOp "a"]

/-- Scenario `begin; unset b` on an empty store. -/
def c2PreAbsent : DBState := runOps initDefault [.beginOp, .unsetOp "b"]

/-- An engine configured with `MAX_DB_SIZE = 1`, filled to capacity with
no transaction open. -/
def c3S : DBState := (set_value (initDB 100 1) "a" "1").2

/-- Scenario `begin; set a 1; begin; set a 2` on an empty store. -/
def c4S : DBState :=
  runOps initDefault [.beginOp, .setOp "a" "1", .beginOp, .setOp "a" "2"]

/-- Scenario `set a 1; begin; set a 2; begin; set a 1`: the same key touched in
two nested frames, staged back to its committed value innermost. -/
def c4S2 : DBState :=
  runOps initDefault
    [.setOp "a" "1", .beginOp, .setOp "a" "2", .beginOp, .setOp "a" "1"]

/-- Scenario `set a 1; begin; set a 2`: committed value overwritten by an open
frame. -/
def c5S : DBState := runOps initDefault [.setOp "a" "1", .beginOp, .setOp "a" "2"]

/-- Scenario `begin; set a 1; unset b` on an empty store: one frame staging a
write and a tombstone on an absent key. -/
def c7Pre : DBState := runOps initDefault [.beginOp, .setOp "a" "1", .unsetOp "b"]

/-- An engine configured with `MAX_TRANSACTION_DEPTH = 1` after one
`begin`: an open transaction at the depth bound. -/
def c10S : DBState := (begin_transaction (initDB 1 100000)).2

/-- An engine configured with `MAX_DB_SIZE = 1`, filled to capacity,
with a transaction open. -/
def c3W : DBState := runOps (initDB 100 1) [Op.setOp "a" "1", Op.beginOp]

/-- An engine with default bounds and one open transaction. -/
def c10W : DBState := (begin_transaction initDefault).2

/-! ### Analysis definitions -/

/-- The keys of an association list, in insertion order. -/
def keysOf {α : Type} (d : Assoc α) : List String := d.map Prod.fst

/-- A well-formed Python dict image: no duplicate keys. -/
def NodupKeys {α : Type} (d : Assoc α) : Prop := (keysOf d).Nodup

/-- The number of committed-store entries holding value `v` (with
`NodupKeys`, the number of keys currently mapped to `v`). -/
def committedCount (db : Dict) (v : String) : Nat :=
  match db with
  | [] => 0
  | (_, w) :: rest => (if w = v then 1 else 0) + committedCount rest v

/-- The reverse-index invariant of spec section 3: both maps are
duplicate-free, every value reads from `_counts` as exactly the number
of committed keys holding it, and no stored entry is 0 (together with
the count equation this forbids entries at or below 0). -/
def InvDB (db : Dict) (c : Counts) : Prop :=
  NodupKeys db ∧ NodupKeys c ∧
  (∀ v, (dget c v).getD 0 = (committedCount db v : Int)) ∧
  (∀ v, dget c v ≠ some 0)

/-- State `s` differs from `s0` only by one extra innermost frame:
committed store, reverse index and configuration agree, and popping the
innermost frame of `s` recovers exactly the stack of `s0`. -/
def ExtendsByFrame (s0 s : DBState) : Prop :=
  s.main_db = s0.main_db ∧ s.counts = s0.counts ∧
  s.stack.dropLast = s0.stack ∧ s.stack ≠ [] ∧
  s.maxDepth = s0.maxDepth ∧ s.maxSize = s0.maxSize

/-! ### Claim theorems -/

/-- C1: the claim states that with two open frames, commit pops ONLY the
innermost frame, merges it into the parent, decreases the depth by
exactly 1 and leaves CommittedStore unchanged, so that a subsequent
rollback succeeds and restores `get a` to its pre-begin value `"1"`.
The code instead drains the whole stack bottom-to-top: after
`set a 1; begin; set a 2; begin; set a 3; commit` the depth is 0 (not 1),
the store holds the committed value `"3"` (it was to stay `"1"`), the
subsequent rollback returns the no-transaction signal `False`, and
`get a` stays `"3"`. The repository test
`test_transaction_commit_rollback` asserts the claimed behaviour and
fails on the code. -/
theorem C1_commit_drains_whole_stack :
    transaction_depth c1S = 0 ∧
    dget c1S.main_db "a" = some "3" ∧
    (rollback_transaction c1S).1 = false ∧
    get_value (rollback_transaction c1S).2 "a" = "3" := by decide

/-- C2: the claim states that commit with a single open frame deletes
every tombstoned key from CommittedStore (decrementing its reverse-index
count) and writes every staged value through the insert-or-update path.
The code inverts the tombstone guard (`if key not in self._main_db`):
a tombstoned key that IS committed is silently kept (here `a` survives
the committed `unset` with value `"1"` and count 1), and a tombstoned
key that is NOT committed raises `KeyError`. -/
theorem C2_commit_tombstone_not_applied :
    (commit_transaction c2Pre).1 = Except.ok true ∧
    dget (commit_transaction c2Pre).2.main_db "a" = some "1" ∧
    dget (commit_transaction c2Pre).2.counts "1" = some 1 ∧
    (commit_transaction c2PreAbsent).1 = Except.error DBErr.keyError := by decide

/-- C3 counterexample: the claim states the capacity check fires
whenever the committed store is at or above the configured maximum,
regardless of whether a transaction is open. With `MAX_DB_SIZE = 1`,
one committed key and NO open transaction, a `set` on a fresh key
succeeds and grows the store to 2 -- the check at line 69 of
`database.py` requires `self._transaction_stack` to be non-empty. -/
theorem C3_capacity_unchecked_outside_transaction :
    db_size c3S = 1 ∧ c3S.maxSize = 1 ∧ c3S.stack = [] ∧
    (set_value c3S "b" "2").1 = Except.ok () ∧
    db_size (set_value c3S "b" "2").2 = 2 := by decide

/-- C4: the claim states `countByValue` always returns the number of
keys whose effective value is the argument. On
`begin; set a 1; begin; set a 2` the code raises `KeyError` (line 150
evaluates `self._main_db[key]` eagerly as a `.get` default while `a` is
not committed); and on `set a 1; begin; set a 2; begin; set a 1` the
code returns 0 although the effective value of `a` is `"1"` (as
`get_value` shows), so the effective count is 1 -- the committed count
is decremented once per frame touching the key. -/
theorem C4_count_values_diverges_from_effective_view :
    count_values c4S "1" = Except.error DBErr.keyError ∧
    count_values c4S2 "1" = Except.ok (CountResult.num 0) ∧
    get_value c4S2 "a" = "1" := by decide

/-- C5: the claim states `findKeysByValue(v)` returns exactly the keys
whose effective value is `v`, and in particular that a key whose
committed value is `v` but which an open frame overwrites with a
different value is not returned. After `set a 1; begin; set a 2` the
code returns `["a"]` for `find_keys "1"` although the effective value
of `a` is `"2"`: the frame loop only removes keys staged to the
tombstone, never keys overwritten with another value. -/
theorem C5_find_keys_returns_overwritten_key :
    find_keys c5S "1" = FindResult.keys ["a"] ∧
    get_value c5S "a" = "2" := by decide

/-- C7: the claim states every operation either completes or leaves all
engine state exactly as before. Committing the frame of
`begin; set a 1; unset b` (with `b` absent) raises `KeyError` midway:
the staged write `a = "1"` is already committed, and the frame is
already popped, so the failed call mutated both the store and the
stack. -/
theorem C7_commit_not_atomic :
    (commit_transaction c7Pre).1 = Except.error DBErr.keyError ∧
    c7Pre.main_db = [] ∧
    (commit_transaction c7Pre).2.main_db = [("a", "1")] ∧
    c7Pre.stack ≠ [] ∧
    (commit_transaction c7Pre).2.stack = [] := by decide

/-- C10 counterexample: the claim states `set(k, "NULL")` with a
transaction open is observably equivalent to `unset(k)`. In a state at
the configured depth bound (`MAX_TRANSACTION_DEPTH = 1`, one open
frame), `set_value` raises `RecursionError` before staging anything,
while `unset_value` (which has no depth or capacity check) succeeds and
stages the tombstone -- the two calls differ in both result and state. -/
theorem C10_set_tombstone_differs_from_unset :
    (set_value c10S "a" "NULL").1 = Except.error DBErr.recursionError ∧
    (unset_value c10S "a").1 = Except.ok () ∧
    set_value c10S "a" "NULL" ≠ unset_value c10S "a" := by decide

/-! ### Association-list lemmas -/

theorem dget_dinsert {α : Type} (d : Assoc α) (k k1 : String) (v : α) :
    dget (dinsert d k v) k1 = if k = k1 then some v else dget d k1 := by
  induction d with
  | nil => simp [dinsert, dget]
  | cons hd tl ih =>
    obtain ⟨k2, v2⟩ := hd
    by_cases h2 : k2 = k
    · subst h2
      by_cases h1 : k2 = k1 <;> simp [dinsert, dget, h1]
    · by_cases h1 : k2 = k1
      · subst h1
        have hk : ¬ k = k2 := fun h => h2 h.symm
        simp [dinsert, dget, h2, hk]
      · simp [dinsert, dget, h2, h1, ih]

theorem dget_dinsert_self {α : Type} (d : Assoc α) (k : String) (v : α) :
    dget (dinsert d k v) k = some v := by
  rw [dget_dinsert]; simp

theorem dget_cons_self {α : Type} (k : String) (v : α) (tl : Assoc α) :
    dget ((k, v) :: tl) k = some v := by
  simp [dget]

theorem dget_cons_ne {α : Type} {k k1 : String} (h : ¬ k = k1) (v : α)
    (tl : Assoc α) : dget ((k, v) :: tl) k1 = dget tl k1 := by
  simp [dget, h]

theorem dinsert_cons_self {α : Type} (k : String) (v v1 : α) (tl : Assoc α) :
    dinsert ((k, v) :: tl) k v1 = (k, v1) :: tl := by
  simp [dinsert]

theorem dinsert_cons_ne {α : Type} {k k1 : String} (h : ¬ k = k1) (v v1 : α)
    (tl : Assoc α) : dinsert ((k, v) :: tl) k1 v1 = (k, v) :: dinsert tl k1 v1 := by
  simp [dinsert, h]

theorem derase_cons_self {α : Type} (k : String) (v : α) (tl : Assoc α) :
    derase ((k, v) :: tl) k = tl := by
  simp [derase]

theorem derase_cons_ne {α : Type} {k k1 : String} (h : ¬ k = k1) (v : α)
    (tl : Assoc α) : derase ((k, v) :: tl) k1 = (k, v) :: derase tl k1 := by
  simp [derase, h]

theorem committedCount_cons (k w v : String) (tl : Dict) :
    committedCount ((k, w) :: tl) v = (if w = v then 1 else 0) + committedCount tl v := rfl

theorem keysOf_cons {α : Type} (k : String) (v : α) (tl : Assoc α) :
    keysOf ((k, v) :: tl) = k :: keysOf tl := rfl

theorem nodupKeys_cons_iff {α : Type} (k : String) (v : α) (tl : Assoc α) :
    NodupKeys ((k, v) :: tl) ↔ k ∉ keysOf tl ∧ NodupKeys tl := by
  show (k :: keysOf tl).Nodup ↔ _
  exact List.nodup_cons

theorem dget_eq_none_iff {α : Type} (d : Assoc α) (k : String) :
    dget d k = none ↔ k ∉ keysOf d := by
  induction d with
  | nil => simp [dget, keysOf]
  | cons hd tl ih =>
    obtain ⟨k2, v2⟩ := hd
    rw [keysOf_cons, List.mem_cons]
    by_cases h2 : k2 = k
    · subst h2
      rw [dget_cons_self]
      simp
    · have hk : ¬ k = k2 := fun h => h2 h.symm
      rw [dget_cons_ne h2, ih]
      simp [hk]

theorem keysOf_dinsert_none {α : Type} (d : Assoc α) (k : String) (v : α)
    (h : dget d k = none) : keysOf (dinsert d k v) = keysOf d ++ [k] := by
  induction d with
  | nil => rfl
  | cons hd tl ih =>
    obtain ⟨k2, v2⟩ := hd
    by_cases h2 : k2 = k
    · subst h2
      rw [dget_cons_self] at h
      exact absurd h (by simp)
    · rw [dget_cons_ne h2] at h
      rw [dinsert_cons_ne h2, keysOf_cons, keysOf_cons, ih h]
      rfl

theorem keysOf_dinsert_some {α : Type} (d : Assoc α) (k : String) (v : α)
    {w : α} (h : dget d k = some w) : keysOf (dinsert d k v) = keysOf d := by
  induction d with
  | nil => simp [dget] at h
  | cons hd tl ih =>
    obtain ⟨k2, v2⟩ := hd
    by_cases h2 : k2 = k
    · subst h2
      rw [dinsert_cons_self, keysOf_cons, keysOf_cons]
    · rw [dget_cons_ne h2] at h
      rw [dinsert_cons_ne h2, keysOf_cons, keysOf_cons, ih h]

theorem nodup_dinsert {α : Type} (d : Assoc α) (k : String) (v : α)
    (h : NodupKeys d) : NodupKeys (dinsert d k v) := by
  cases hd : dget d k with
  | none =>
    show (keysOf (dinsert d k v)).Nodup
    rw [keysOf_dinsert_none d k v hd]
    have hmem := (dget_eq_none_iff d k).mp hd
    simp [List.nodup_append, h, hmem]
    exact h
  | some w =>
    show (keysOf (dinsert d k v)).Nodup
    rw [keysOf_dinsert_some d k v hd]
    exact h

theorem keysOf_derase_sublist {α : Type} (d : Assoc α) (k : String) :
    List.Sublist (keysOf (derase d k)) (keysOf d) := by
  induction d with
  | nil => simp [derase, keysOf]
  | cons hd tl ih =>
    obtain ⟨k2, v2⟩ := hd
    by_cases h2 : k2 = k
    · subst h2
      rw [derase_cons_self, keysOf_cons]
      exact List.sublist_cons_of_sublist _ (List.Sublist.refl _)
    · rw [derase_cons_ne h2, keysOf_cons, keysOf_cons]
      exact List.Sublist.cons₂ _ ih

theorem nodup_derase {α : Type} (d : Assoc α) (k : String)
    (h : NodupKeys d) : NodupKeys (derase d k) :=
  List.Nodup.sublist (keysOf_derase_sublist d k) h

theorem dget_derase {α : Type} (d : Assoc α) (hnd : NodupKeys d) (k k1 : String) :
    dget (derase d k) k1 = if k = k1 then none else dget d k1 := by
  induction d with
  | nil => simp [derase, dget]
  | cons hd tl ih =>
    obtain ⟨k2, v2⟩ := hd
    have hsplit := (nodupKeys_cons_iff k2 v2 tl).mp hnd
    by_cases h2 : k2 = k
    · subst h2
      rw [derase_cons_self]
      by_cases h1 : k2 = k1
      · subst h1
        rw [if_pos rfl]
        exact (dget_eq_none_iff tl k2).mpr hsplit.1
      · rw [if_neg h1, dget_cons_ne h1]
    · rw [derase_cons_ne h2]
      by_cases h1 : k2 = k1
      · subst h1
        have hk : ¬ k = k2 := fun h => h2 h.symm
        rw [dget_cons_self, if_neg hk, dget_cons_self]
      · rw [dget_cons_ne h1, dget_cons_ne h1, ih hsplit.2]

/-- Unfolding `modifyLast` on a list with an explicit last element. -/
theorem modifyLast_eq_append (f : Frame → Frame) (l : List Frame) (x : Frame) :
    modifyLast f (l ++ [x]) = l ++ [f x] := by
  induction l with
  | nil => rfl
  | cons y ys ih =>
    cases ys with
    | nil => rfl
    | cons z zs =>
      show y :: modifyLast f ((z :: zs) ++ [x]) = y :: ((z :: zs) ++ [f x])
      rw [ih]

/-! ### Counting lemmas for the reverse index -/

theorem committedCount_pos {db : Dict} {k w : String} (h : dget db k = some w) :
    1 ≤ committedCount db w := by
  induction db with
  | nil => simp [dget] at h
  | cons hd tl ih =>
    obtain ⟨k2, v2⟩ := hd
    by_cases h2 : k2 = k
    · subst h2
      rw [dget_cons_self, Option.some.injEq] at h
      subst h
      rw [committedCount_cons, if_pos rfl]
      omega
    · rw [dget_cons_ne h2] at h
      have := ih h
      rw [committedCount_cons]
      omega

theorem committedCount_dinsert_none (db : Dict) (k v v1 : String)
    (h : dget db k = none) :
    committedCount (dinsert db k v) v1 =
      committedCount db v1 + (if v = v1 then 1 else 0) := by
  induction db with
  | nil =>
    show committedCount [(k, v)] v1 = _
    rw [committedCount_cons]
    show _ = committedCount [] v1 + _
    rw [committedCount]
    omega
  | cons hd tl ih =>
    obtain ⟨k2, v2⟩ := hd
    by_cases h2 : k2 = k
    · subst h2
      rw [dget_cons_self] at h
      exact absurd h (by simp)
    · rw [dget_cons_ne h2] at h
      rw [dinsert_cons_ne h2, committedCount_cons, committedCount_cons, ih h]
      omega

theorem committedCount_dinsert_some (db : Dict) (k v v1 w : String)
    (h : dget db k = some w) :
    committedCount (dinsert db k v) v1 + (if w = v1 then 1 else 0) =
      committedCount db v1 + (if v = v1 then 1 else 0) := by
  induction db with
  | nil => simp [dget] at h
  | cons hd tl ih =>
    obtain ⟨k2, v2⟩ := hd
    by_cases h2 : k2 = k
    · subst h2
      rw [dget_cons_self, Option.some.injEq] at h
      subst h
      rw [dinsert_cons_self, committedCount_cons, committedCount_cons]
      omega
    · rw [dget_cons_ne h2] at h
      rw [dinsert_cons_ne h2, committedCount_cons, committedCount_cons]
      have := ih h
      omega

theorem committedCount_derase (db : Dict) (k v1 w : String)
    (h : dget db k = some w) :
    committedCount (derase db k) v1 + (if w = v1 then 1 else 0) =
      committedCount db v1 := by
  induction db with
  | nil => simp [dget] at h
  | cons hd tl ih =>
    obtain ⟨k2, v2⟩ := hd
    by_cases h2 : k2 = k
    · subst h2
      rw [dget_cons_self, Option.some.injEq] at h
      subst h
      rw [derase_cons_self, committedCount_cons]
      omega
    · rw [dget_cons_ne h2] at h
      rw [derase_cons_ne h2, committedCount_cons, committedCount_cons]
      have := ih h
      omega

theorem dget_incCount (c : Counts) (w v1 : String) :
    dget (incCount c w) v1 =
      if w = v1 then some ((dget c w).getD 0 + 1) else dget c v1 := by
  unfold incCount
  rw [dget_dinsert]

theorem nodup_incCount (c : Counts) (w : String) (h : NodupKeys c) :
    NodupKeys (incCount c w) :=
  nodup_dinsert _ _ _ h

theorem dget_decCountDel (c : Counts) (hnc : NodupKeys c) (w v1 : String) :
    dget (decCountDel c w) v1 =
      if w = v1 then
        (if (dget c w).getD 0 - 1 = 0 then none else some ((dget c w).getD 0 - 1))
      else dget c v1 := by
  unfold decCountDel
  by_cases hz : (dget c w).getD 0 - 1 = 0
  · rw [if_pos hz, dget_derase c hnc]
    by_cases hw : w = v1
    · rw [if_pos hw, if_pos hw, if_pos hz]
    · rw [if_neg hw, if_neg hw]
  · rw [if_neg hz, dget_dinsert]
    by_cases hw : w = v1
    · rw [if_pos hw, if_pos hw, if_neg hz]
    · rw [if_neg hw, if_neg hw]

theorem nodup_decCountDel (c : Counts) (w : String) (h : NodupKeys c) :
    NodupKeys (decCountDel c w) := by
  unfold decCountDel
  split
  · exact nodup_derase _ _ h
  · exact nodup_dinsert _ _ _ h

/-! ### Preservation of the reverse-index invariant -/

theorem update_main_db_inv (db : Dict) (c : Counts) (k v : String)
    (h : InvDB db c) :
    InvDB (update_main_db db c k v).1 (update_main_db db c k v).2 := by
  obtain ⟨nd, nc, hcc, hnz⟩ := h
  cases hdb : dget db k with
  | none =>
    simp only [update_main_db, hdb]
    refine ⟨nodup_dinsert _ _ _ nd, nodup_incCount _ _ nc, ?_, ?_⟩
    · intro v1
      rw [dget_incCount]
      by_cases hv : v = v1
      · subst hv
        rw [if_pos rfl, committedCount_dinsert_none db k v v hdb, if_pos rfl]
        have := hcc v
        simp only [Option.getD_some]
        omega
      · rw [if_neg hv, committedCount_dinsert_none db k v v1 hdb, if_neg hv]
        have := hcc v1
        omega
    · intro v1
      rw [dget_incCount]
      by_cases hv : v = v1
      · rw [if_pos hv]
        intro hcon
        rw [Option.some.injEq] at hcon
        have := hcc v
        omega
      · rw [if_neg hv]
        exact hnz v1
  | some w =>
    simp only [update_main_db, hdb]
    have hccw := hcc w
    have hpos := committedCount_pos hdb
    have nc1 : NodupKeys (decCountDel c w) := nodup_decCountDel _ _ nc
    refine ⟨nodup_dinsert _ _ _ nd, nodup_incCount _ _ nc1, ?_, ?_⟩
    · intro v1
      have hA := committedCount_dinsert_some db k v v1 w hdb
      rw [dget_incCount]
      by_cases hv : v = v1
      · subst hv
        rw [if_pos rfl, dget_decCountDel c nc w v]
        simp only [Option.getD_some]
        by_cases hw : w = v
        · subst hw
          rw [if_pos rfl] at hA
          rw [if_pos rfl]
          by_cases hN : (dget c w).getD 0 - 1 = 0
          · rw [if_pos hN]
            simp only [Option.getD_none]
            omega
          · rw [if_neg hN]
            simp only [Option.getD_some]
            omega
        · rw [if_neg hw]
          rw [if_neg hw, if_pos rfl] at hA
          have := hcc v
          omega
      · rw [if_neg hv, dget_decCountDel c nc w v1]
        by_cases hw : w = v1
        · subst hw
          rw [if_pos rfl, if_neg hv] at hA
          rw [if_pos rfl]
          by_cases hN : (dget c w).getD 0 - 1 = 0
          · rw [if_pos hN]
            simp only [Option.getD_none]
            omega
          · rw [if_neg hN]
            simp only [Option.getD_some]
            omega
        · rw [if_neg hw]
          rw [if_neg hw, if_neg hv] at hA
          have := hcc v1
          omega
    · intro v1
      rw [dget_incCount]
      by_cases hv : v = v1
      · rw [if_pos hv]
        intro hcon
        rw [Option.some.injEq, dget_decCountDel c nc w v] at hcon
        by_cases hw : w = v
        · rw [if_pos hw] at hcon
          by_cases hN : (dget c w).getD 0 - 1 = 0
          · rw [if_pos hN] at hcon
            simp only [Option.getD_none] at hcon
            omega
          · rw [if_neg hN] at hcon
            simp only [Option.getD_some] at hcon
            omega
        · rw [if_neg hw] at hcon
          have := hcc v
          omega
      · rw [if_neg hv, dget_decCountDel c nc w v1]
        by_cases hw : w = v1
        · rw [if_pos hw]
          by_cases hN : (dget c w).getD 0 - 1 = 0
          · rw [if_pos hN]
            simp
          · rw [if_neg hN]
            intro hcon
            rw [Option.some.injEq] at hcon
            exact hN hcon
        · rw [if_neg hw]
          exact hnz v1

theorem unset_delete_inv (db : Dict) (c : Counts) (k w : String)
    (h : InvDB db c) (hdb : dget db k = some w) :
    InvDB (derase db k) (decCountDel c w) := by
  obtain ⟨nd, nc, hcc, hnz⟩ := h
  have hccw := hcc w
  have hpos := committedCount_pos hdb
  refine ⟨nodup_derase _ _ nd, nodup_decCountDel _ _ nc, ?_, ?_⟩
  · intro v1
    have hA := committedCount_derase db k v1 w hdb
    rw [dget_decCountDel c nc w v1]
    by_cases hw : w = v1
    · subst hw
      rw [if_pos rfl] at hA
      rw [if_pos rfl]
      by_cases hN : (dget c w).getD 0 - 1 = 0
      · rw [if_pos hN]
        simp only [Option.getD_none]
        omega
      · rw [if_neg hN]
        simp only [Option.getD_some]
        omega
    · rw [if_neg hw]
      rw [if_neg hw] at hA
      have := hcc v1
      omega
  · intro v1
    rw [dget_decCountDel c nc w v1]
    by_cases hw : w = v1
    · rw [if_pos hw]
      by_cases hN : (dget c w).getD 0 - 1 = 0
      · rw [if_pos hN]
        simp
      · rw [if_neg hN]
        intro hcon
        rw [Option.some.injEq] at hcon
        exact hN hcon
    · rw [if_neg hw]
      exact hnz v1

theorem applyUpdates_inv (ups : List (String × String)) : ∀ (db : Dict) (c : Counts),
    InvDB db c →
    InvDB (applyUpdates ups db c).2.1 (applyUpdates ups db c).2.2 := by
  induction ups with
  | nil => intro db c h; exact h
  | cons kv rest ih =>
    intro db c h
    obtain ⟨k, v⟩ := kv
    rw [applyUpdates]
    by_cases hNull : v = "NULL"
    · rw [if_pos hNull]
      by_cases hm : dmem db k
      · rw [if_pos hm]
        exact ih db c h
      · rw [if_neg hm]
        exact h
    · rw [if_neg hNull]
      exact ih _ _ (update_main_db_inv db c k v h)

theorem commitLoop_inv (l : List Frame) : ∀ (db : Dict) (c : Counts),
    InvDB db c →
    InvDB (commitLoop l db c).2.1 (commitLoop l db c).2.2.1 := by
  induction l with
  | nil => intro db c h; exact h
  | cons fr rest ih =>
    intro db c h
    rw [commitLoop]
    cases hr : (applyUpdates fr.updates db c).1 with
    | ok u =>
      simp only [hr]
      exact ih _ _ (applyUpdates_inv fr.updates db c h)
    | error e =>
      simp only [hr]
      exact applyUpdates_inv fr.updates db c h

theorem stepOp_inv (s : DBState) (op : Op)
    (h : InvDB s.main_db s.counts) :
    InvDB (stepOp s op).main_db (stepOp s op).counts := by
  cases op with
  | setOp k v =>
    show InvDB (set_value s k v).2.main_db (set_value s k v).2.counts
    rw [set_value]
    split
    · exact h
    split
    · exact h
    split
    · exact h
    split
    · split
      · exact h
      · exact h
    · exact update_main_db_inv _ _ _ _ h
  | unsetOp k =>
    show InvDB (unset_value s k).2.main_db (unset_value s k).2.counts
    rw [unset_value]
    split
    · exact h
    split
    · exact h
    · split
      · rename_i w hw
        exact unset_delete_inv _ _ _ _ ⟨h.1, h.2.1, h.2.2.1, h.2.2.2⟩ hw
      · exact h
  | beginOp =>
    show InvDB (begin_transaction s).2.main_db (begin_transaction s).2.counts
    rw [begin_transaction]
    split
    · exact h
    · exact h
  | rollbackOp =>
    show InvDB (rollback_transaction s).2.main_db (rollback_transaction s).2.counts
    rw [rollback_transaction]
    split
    · exact h
    · exact h
  | commitOp =>
    show InvDB (commit_transaction s).2.main_db (commit_transaction s).2.counts
    rw [commit_transaction]
    split
    · exact h
    · exact commitLoop_inv s.stack s.main_db s.counts h

theorem runOps_inv (ops : List Op) : ∀ s : DBState,
    InvDB s.main_db s.counts →
    InvDB (runOps s ops).main_db (runOps s ops).counts := by
  induction ops with
  | nil => intro s h; exact h
  | cons op rest ih =>
    intro s h
    exact ih (stepOp s op) (stepOp_inv s op h)

/-- C8: in every state reachable from a fresh engine by any sequence of
engine calls (any mix of set/unset/begin/rollback/commit, with any
number of open transactions, including calls that raise), the committed
store has no duplicate keys, the reverse index reads back, for every
value v, exactly the number of committed keys holding v, and every
entry actually stored in the reverse index is strictly positive (so no
entry with count at or below 0 ever exists -- it is deleted instead). -/
theorem C8_reverse_index_invariant (maxD maxS : Nat) (ops : List Op) :
    NodupKeys (runOps (initDB maxD maxS) ops).main_db ∧
    (∀ v, (dget (runOps (initDB maxD maxS) ops).counts v).getD 0 =
      (committedCount (runOps (initDB maxD maxS) ops).main_db v : Int)) ∧
    (∀ v n, dget (runOps (initDB maxD maxS) ops).counts v = some n → 0 < n) := by
  have h0 : InvDB (initDB maxD maxS).main_db (initDB maxD maxS).counts := by
    refine ⟨List.nodup_nil, List.nodup_nil, ?_, ?_⟩
    · intro v
      simp [initDB, dget, committedCount]
    · intro v
      simp [initDB, dget]
  obtain ⟨nd, nc, hcc, hnz⟩ := runOps_inv ops (initDB maxD maxS) h0
  refine ⟨nd, hcc, ?_⟩
  intro v n hv
  have h1 := hcc v
  have h2 := hnz v
  rw [hv] at h1 h2
  simp only [Option.getD_some] at h1
  have hne : n ≠ 0 := fun he => h2 (by rw [he])
  omega

/-- Witness for C8: a concrete two-insert run, reading back count 2 for
value `"1"` and instantiating the positivity statement at that entry. -/
theorem C8_reverse_index_witness :
    (dget (runOps (initDB 100 100000) [Op.setOp "a" "1", Op.setOp "b" "1"]).counts "1").getD 0 =
      (committedCount (runOps (initDB 100 100000)
        [Op.setOp "a" "1", Op.setOp "b" "1"]).main_db "1" : Int) ∧
    (0 : Int) < 2 :=
  ⟨(C8_reverse_index_invariant 100 100000 [Op.setOp "a" "1", Op.setOp "b" "1"]).2.1 "1",
   (C8_reverse_index_invariant 100 100000 [Op.setOp "a" "1", Op.setOp "b" "1"]).2.2 "1" 2
     (by decide)⟩

/-! ### Rollback as exact inverse of an open frame -/

theorem fields_eq_imp_eq {t u : DBState}
    (h1 : t.main_db = u.main_db) (h2 : t.counts = u.counts)
    (h3 : t.stack = u.stack) (h4 : t.maxDepth = u.maxDepth)
    (h5 : t.maxSize = u.maxSize) : t = u := by
  cases t
  cases u
  simp only at h1 h2 h3 h4 h5
  subst h1
  subst h2
  subst h3
  subst h4
  subst h5
  rfl

theorem stack_exists_concat {s : DBState} (hs : s.stack ≠ []) :
    ∃ l x, s.stack = l ++ [x] := by
  rcases List.eq_nil_or_concat s.stack with h | ⟨l, x, h⟩
  · exact absurd h hs
  · exact ⟨l, x, by rw [h, List.concat_eq_append]⟩

theorem set_value_state_cases (s : DBState) (k v : String) (hs : s.stack ≠ []) :
    (set_value s k v).2 = s ∨
    (set_value s k v).2 =
      { s with stack := modifyLast (fun fr => stageWrite fr s.main_db k v) s.stack } := by
  rw [set_value]
  split_ifs <;>
    first
      | (left; rfl)
      | (right; rfl)
      | (exact absurd hs (by assumption))

theorem unset_value_state_cases (s : DBState) (k : String) (hs : s.stack ≠ []) :
    (unset_value s k).2 = s ∨
    (unset_value s k).2 =
      { s with stack := modifyLast (fun fr => stageWrite fr s.main_db k "NULL") s.stack } := by
  rw [unset_value]
  split_ifs <;>
    first
      | (left; rfl)
      | (right; rfl)
      | (exact absurd hs (by assumption))

theorem stepOp_write_extends (s0 s : DBState) (op : Op)
    (hw : op.isWrite = true) (hE : ExtendsByFrame s0 s) :
    ExtendsByFrame s0 (stepOp s op) := by
  obtain ⟨h1, h2, h3, h4, h5, h6⟩ := hE
  obtain ⟨l, x, hlx⟩ := stack_exists_concat h4
  have hmod : ∀ f : Frame → Frame,
      ExtendsByFrame s0 { s with stack := modifyLast f s.stack } := by
    intro f
    refine ⟨h1, h2, ?_, ?_, h5, h6⟩
    · show (modifyLast f s.stack).dropLast = s0.stack
      rw [hlx, modifyLast_eq_append, List.dropLast_concat]
      rw [hlx, List.dropLast_concat] at h3
      exact h3
    · show modifyLast f s.stack ≠ []
      rw [hlx, modifyLast_eq_append]
      simp
  cases op with
  | setOp k v =>
    show ExtendsByFrame s0 (set_value s k v).2
    rcases set_value_state_cases s k v h4 with h | h
    · rw [h]
      exact ⟨h1, h2, h3, h4, h5, h6⟩
    · rw [h]
      exact hmod _
  | unsetOp k =>
    show ExtendsByFrame s0 (unset_value s k).2
    rcases unset_value_state_cases s k h4 with h | h
    · rw [h]
      exact ⟨h1, h2, h3, h4, h5, h6⟩
    · rw [h]
      exact hmod _
  | beginOp => simp [Op.isWrite] at hw
  | rollbackOp => simp [Op.isWrite] at hw
  | commitOp => simp [Op.isWrite] at hw

theorem runOps_writes_extend (ops : List Op) :
    ∀ (s0 s : DBState), (∀ op ∈ ops, op.isWrite = true) →
      ExtendsByFrame s0 s → ExtendsByFrame s0 (runOps s ops) := by
  induction ops with
  | nil => intro s0 s _ h; exact h
  | cons op rest ih =>
    intro s0 s hops h
    exact ih s0 (stepOp s op)
      (fun o ho => hops o (List.mem_cons_of_mem op ho))
      (stepOp_write_extends s0 s op (hops op (List.mem_cons_self op rest)) h)

/-- C6: from any state whose transaction depth is below the bound, a
successful `begin` followed by ANY sequence of `set`/`unset` calls
(successful or raising) and then `rollback` returns the success signal
and restores the engine state exactly -- committed store, reverse
index, stack and configuration included -- so `get`, `countByValue` and
`findKeysByValue` give on every key and value the same results as
immediately before the `begin`. -/
theorem C6_rollback_undoes_writes (s : DBState) (ops : List Op)
    (hops : ∀ op ∈ ops, op.isWrite = true)
    (hd : transaction_depth s < s.maxDepth) :
    (begin_transaction s).1 = Except.ok () ∧
    rollback_transaction (runOps (begin_transaction s).2 ops) = (true, s) := by
  have hble : ¬ s.maxDepth ≤ s.stack.length := not_le.mpr hd
  have hbegin : (begin_transaction s).2 =
      { s with stack := s.stack ++ [{ updates := [], old_values := [] }] } := by
    rw [begin_transaction, if_neg hble]
  constructor
  · rw [begin_transaction, if_neg hble]
  · have hE0 : ExtendsByFrame s (begin_transaction s).2 := by
      rw [hbegin]
      refine ⟨rfl, rfl, ?_, ?_, rfl, rfl⟩
      · show (s.stack ++ [_]).dropLast = s.stack
        exact List.dropLast_concat
      · show s.stack ++ [_] ≠ []
        simp
    obtain ⟨h1, h2, h3, h4, h5, h6⟩ :=
      runOps_writes_extend ops s (begin_transaction s).2 hops hE0
    rw [rollback_transaction, if_neg h4]
    have hst : ({ runOps (begin_transaction s).2 ops with
        stack := (runOps (begin_transaction s).2 ops).stack.dropLast } : DBState) = s :=
      fields_eq_imp_eq h1 h2 h3 h5 h6
    rw [hst]

/-- Witness for C6: a concrete write sequence inside a transaction on a
fresh default engine, undone exactly by the rollback. -/
theorem C6_rollback_witness :
    ([Op.setOp "a" "1", Op.unsetOp "a", Op.setOp "b" "2"] : List Op).all Op.isWrite = true ∧
    transaction_depth initDefault < initDefault.maxDepth ∧
    (begin_transaction initDefault).1 = Except.ok () ∧
    rollback_transaction (runOps (begin_transaction initDefault).2
      [Op.setOp "a" "1", Op.unsetOp "a", Op.setOp "b" "2"]) = (true, initDefault) :=
  ⟨by decide, by decide,
   (C6_rollback_undoes_writes initDefault
      [Op.setOp "a" "1", Op.unsetOp "a", Op.setOp "b" "2"] (by decide) (by decide)).1,
   (C6_rollback_undoes_writes initDefault
      [Op.setOp "a" "1", Op.unsetOp "a", Op.setOp "b" "2"] (by decide) (by decide)).2⟩

/-! ### Validation sentinels and the remaining amended claims -/

/-- C9: for every engine state and every input string failing
validation (empty, or containing a non-alphanumeric character),
`get_value`, `count_values` and `find_keys` do not raise: each returns
its sentinel error-string result. Each of the three methods assigns no
engine field (they are embedded as pure functions of the state), so the
engine state is left unchanged by construction. -/
theorem C9_reads_return_error_sentinels (s : DBState) (x : String)
    (h : pyIsAlnum x = false) :
    get_value s x = "ERROR: Invalid key format" ∧
    count_values s x = Except.ok (CountResult.err "ERROR: Invalid value format") ∧
    find_keys s x = FindResult.err "ERROR: Invalid value format" := by
  have hv : validate_string x = true := by
    rw [validate_string, h]
    rfl
  refine ⟨?_, ?_, ?_⟩
  · rw [get_value, if_pos hv]
  · rw [count_values, if_pos hv]
  · rw [find_keys, if_pos hv]

/-- Witness for C9 on the invalid input `"a b"` (contains a space). -/
theorem C9_reads_witness :
    pyIsAlnum "a b" = false ∧
    (get_value initDefault "a b" = "ERROR: Invalid key format" ∧
     count_values initDefault "a b" = Except.ok (CountResult.err "ERROR: Invalid value format") ∧
     find_keys initDefault "a b" = FindResult.err "ERROR: Invalid value format") :=
  ⟨by decide, C9_reads_return_error_sentinels initDefault "a b" (by decide)⟩

/-- C3 amended: for valid inputs, `set_value` fails with the capacity
error exactly when the committed store is at or above the configured
maximum AND a transaction is open, and that failure leaves the state
unchanged; with no open transaction the capacity check is skipped. -/
theorem C3_amended_capacity_check_needs_open_transaction (s : DBState) (k v : String)
    (hk : pyIsAlnum k = true) (hv : pyIsAlnum v = true) :
    ((set_value s k v).1 = Except.error DBErr.memoryError ↔
      (s.maxSize ≤ db_size s ∧ s.stack ≠ [])) ∧
    (s.maxSize ≤ db_size s → s.stack ≠ [] →
      set_value s k v = (Except.error DBErr.memoryError, s)) := by
  have hk1 : ¬ validate_string k = true := by
    rw [validate_string, hk]
    simp
  have hv1 : ¬ validate_string v = true := by
    rw [validate_string, hv]
    simp
  by_cases hcap : s.maxSize ≤ db_size s ∧ s.stack ≠ []
  · constructor
    · rw [set_value, if_neg hk1, if_neg hv1, if_pos hcap]
      exact iff_of_true rfl hcap
    · intro _ _
      rw [set_value, if_neg hk1, if_neg hv1, if_pos hcap]
  · constructor
    · rw [set_value, if_neg hk1, if_neg hv1, if_neg hcap]
      constructor
      · intro h1
        exfalso
        by_cases hst : s.stack ≠ []
        · rw [if_pos hst] at h1
          by_cases hdep : s.maxDepth ≤ transaction_depth s
          · rw [if_pos hdep] at h1
            simp at h1
          · rw [if_neg hdep] at h1
            simp at h1
        · rw [if_neg hst] at h1
          simp at h1
      · intro h2
        exact absurd h2 hcap
    · intro ha hb
      exact absurd ⟨ha, hb⟩ hcap

/-- Witness for the amended C3: a store at its configured capacity 1
with a transaction open rejects a fresh set and is left unchanged. -/
theorem C3_amended_capacity_witness :
    set_value c3W "b" "2" = (Except.error DBErr.memoryError, c3W) :=
  (C3_amended_capacity_check_needs_open_transaction c3W "b" "2" (by decide) (by decide)).2
    (by decide) (by decide)

theorem get_value_top_hit (s : DBState) (k : String)
    (hk : ¬ validate_string k = true) {v : String}
    (h : s.stack.reverse.findSome? (fun fr => dget fr.updates k) = some v) :
    get_value s k = v := by
  rw [get_value, if_neg hk, h]

/-- C10 amended: `"NULL"` is a valid alphanumeric value, and whenever a
transaction is open with the committed store strictly below capacity
and the depth strictly below the bound, `set(k, "NULL")` is observably
identical to `unset(k)` (same result, same state, both staging the
tombstone with the same first-touch snapshot), and a subsequent `get`
returns `"NULL"`. -/
theorem C10_amended_set_tombstone_equals_unset (s : DBState) (k : String)
    (hk : pyIsAlnum k = true) (hopen : s.stack ≠ [])
    (hsz : db_size s < s.maxSize) (hdep : transaction_depth s < s.maxDepth) :
    pyIsAlnum "NULL" = true ∧
    set_value s k "NULL" = unset_value s k ∧
    get_value (unset_value s k).2 k = "NULL" := by
  have hk1 : ¬ validate_string k = true := by
    rw [validate_string, hk]
    simp
  have hNa : ¬ validate_string "NULL" = true := by decide
  have hcap : ¬ (s.maxSize ≤ db_size s ∧ s.stack ≠ []) :=
    fun hc => absurd hc.1 (not_le.mpr hsz)
  have hdep1 : ¬ s.maxDepth ≤ transaction_depth s := not_le.mpr hdep
  have hR : unset_value s k =
      (Except.ok (), { s with stack := modifyLast (fun fr => stageWrite fr s.main_db k "NULL") s.stack }) := by
    rw [unset_value, if_neg hk1, if_pos hopen]
  have hL : set_value s k "NULL" =
      (Except.ok (), { s with stack := modifyLast (fun fr => stageWrite fr s.main_db k "NULL") s.stack }) := by
    rw [set_value, if_neg hk1, if_neg hNa, if_neg hcap, if_pos hopen, if_neg hdep1]
  refine ⟨by decide, by rw [hL, hR], ?_⟩
  rw [hR]
  obtain ⟨l, x, hlx⟩ := stack_exists_concat hopen
  apply get_value_top_hit _ _ hk1
  show (modifyLast (fun fr => stageWrite fr s.main_db k "NULL")
      s.stack).reverse.findSome? (fun fr => dget fr.updates k) = some "NULL"
  rw [hlx, modifyLast_eq_append]
  have hrev : (l ++ [stageWrite x s.main_db k "NULL"]).reverse =
      stageWrite x s.main_db k "NULL" :: l.reverse := by
    simp
  rw [hrev, List.findSome?_cons]
  have hdg : dget (stageWrite x s.main_db k "NULL").updates k = some "NULL" :=
    dget_dinsert_self _ _ _
  rw [hdg]

/-- Witness for the amended C10 on a fresh default engine with one open
transaction. -/
theorem C10_amended_witness :
    pyIsAlnum "NULL" = true ∧
    set_value c10W "a" "NULL" = unset_value c10W "a" ∧
    get_value (unset_value c10W "a").2 "a" = "NULL" :=
  C10_amended_set_tombstone_equals_unset c10W "a" (by decide) (by decide)
    (by decide) (by decide)

end InMemoryDB
